import Mathlib

/-!
Verification of the google-news-resolver service against its specification.

The repository ships two Express servers in `server.js`:
* the full variant (`normalizeGoogleNewsUrl`, `resolveOnce`, `resolveWithRetries`,
  the concurrency gate `waitForTurn`/`doneTurn`, and the `/resolve` handler), and
* a simpler variant (`resolveGoogleNewsUrl` and its own `/resolve` handler).

Both are embedded below.  Strings are modelled as `List Char`; the JavaScript
`String.prototype.replace` with a string pattern (which rewrites only the first
occurrence) is modelled by `replaceFirst`.  Page states reachable after
navigation are modelled by `PageState` (final URL, HTTP status, and the list of
anchors in document order); the pure decision logic of each resolution attempt
is a function of that state.
-/

namespace GNR

/-! ## Substring infrastructure -/

/-- Number of positions of `s` at which the pattern `p` occurs (as a prefix of
the corresponding suffix of `s`).  Occurrences may overlap. -/
def countSubstr : List Char → List Char → Nat
  | [], _ => 0
  | h :: t, p => (if p <+: (h :: t) then 1 else 0) + countSubstr t p

/-- JavaScript `haystack.replace(pattern, replacement)` with a string pattern:
replaces only the leftmost occurrence of `p` in `s` by `r`; returns `s`
unchanged when `p` does not occur. -/
def replaceFirst : List Char → List Char → List Char → List Char
  | [], _, _ => []
  | h :: t, p, r =>
    if p <+: (h :: t) then r ++ (h :: t).drop p.length
    else h :: replaceFirst t p r

/-- The pattern `p` occurs in `s` starting at position `i`. -/
def OccursAt (s p : List Char) (i : Nat) : Prop := p <+: s.drop i

/-- JavaScript `haystack.includes(pattern)`, on `List Char`. -/
def listContains (hay pat : List Char) : Bool := decide (pat <:+: hay)

/-! ## URL Normalizer (full variant, `normalizeGoogleNewsUrl` in server.js) -/

def P1 : List Char := "https://news.google.com/rss/articles/".data
def P2 : List Char := "http://news.google.com/rss/articles/".data
def P3 : List Char := "/rss/articles/".data
def RA : List Char := "https://news.google.com/articles/".data
def R3 : List Char := "/articles/".data
def RSS : List Char := "/rss".data

/-- `normalizeGoogleNewsUrl` from server.js, on string inputs.  The falsy
guard `!input` corresponds to the empty string; each `replace` rewrites only
the first occurrence of its pattern. -/
def normalizeGoogleNewsUrl (input : List Char) : List Char :=
  if input = [] then input
  else replaceFirst (replaceFirst (replaceFirst input P1 RA) P2 RA) P3 R3

/-! ## Page model and Outbound Extractor

An `Anchor` models one `<a>` element of the loaded page: its (absolute) `href`,
its `rel` and `target` attributes, and whether it sits inside an `<article>`
or `<main>` landmark.  A `PageState` is the observable outcome of one
navigation: the post-redirect URL `page.url()`, the HTTP status of the initial
response, and the anchors of the DOM in document order. -/

def strContains (hay pat : String) : Bool := listContains hay.data pat.data

def strStartsWith (hay pat : String) : Bool := decide (pat.data <+: hay.data)

structure Anchor where
  href : String
  rel : Option String
  target : Option String
  inArticle : Bool
  inMain : Bool
deriving DecidableEq

structure PageState where
  finalUrl : String
  status : Option Int
  dom : List Anchor
deriving DecidableEq

/-- The rejection filter `bad` of the full variant: falsy href, aggregator
domain, account domain, or the script pseudo-protocol. -/
def badHref (h : String) : Bool :=
  h = "" || strContains h "news.google.com" || strContains h "accounts.google.com"
    || strStartsWith h "javascript:"

/-- selector `a[href^="http"][rel="nofollow"]` (full variant). -/
def selNofollow (a : Anchor) : Bool := strStartsWith a.href "http" && a.rel == some "nofollow"

/-- selector `a[href^="http"][target="_blank"]` (full variant). -/
def selBlank (a : Anchor) : Bool := strStartsWith a.href "http" && a.target == some "_blank"

/-- selector `article a[href^="http"]`. -/
def selArticle (a : Anchor) : Bool := a.inArticle && strStartsWith a.href "http"

/-- selector `main a[href^="http"]`. -/
def selMainLm (a : Anchor) : Bool := a.inMain && strStartsWith a.href "http"

/-- selector `a[href^="http"]`. -/
def selAnyHttp (a : Anchor) : Bool := strStartsWith a.href "http"

/-- One selector round of the full variant page script:
`Array.from(document.querySelectorAll(sel)).map(a => a.href).filter(h => !bad(h))`. -/
def goodLinks (dom : List Anchor) (sel : Anchor → Bool) : List String :=
  ((dom.filter sel).map (fun a => a.href)).filter (fun h => !badHref h)

/-- The full variant `page.evaluate` body of `resolveOnce`: walk the selector
priority list, returning `links[0]` of the first selector whose filtered link
list is nonempty. -/
def extractOutbound (dom : List Anchor) : Option String :=
  match goodLinks dom selNofollow with
  | h :: _ => some h
  | [] =>
    match goodLinks dom selBlank with
    | h :: _ => some h
    | [] =>
      match goodLinks dom selArticle with
      | h :: _ => some h
      | [] =>
        match goodLinks dom selMainLm with
        | h :: _ => some h
        | [] =>
          match goodLinks dom selAnyHttp with
          | h :: _ => some h
          | [] => none

inductive Method
  | final_url
  | dom_link
  | none
deriving DecidableEq

structure AttemptResult where
  ok : Bool
  resolved_url : Option String
  method : Method
  http_status : Option Int
  final_url : Option String
deriving DecidableEq

/-- The decision logic of `resolveOnce` (full variant) as a function of the
observed page state, covering the non-throwing path after `finalUrl = page.url()`;
`if (finalUrl && !finalUrl.includes("news.google.com"))` is the fast path,
`if (outbound)` treats an empty extracted string as falsy. -/
def resolveOnceResult (st : PageState) : AttemptResult :=
  if !(st.finalUrl == "") && !(strContains st.finalUrl "news.google.com") then
    { ok := true, resolved_url := some st.finalUrl, method := Method.final_url,
      http_status := st.status, final_url := some st.finalUrl }
  else
    match extractOutbound st.dom with
    | some u =>
      if u == "" then
        { ok := true, resolved_url := Option.none, method := Method.none,
          http_status := st.status, final_url := some st.finalUrl }
      else
        { ok := true, resolved_url := some u, method := Method.dom_link,
          http_status := st.status, final_url := some st.finalUrl }
    | Option.none =>
      { ok := true, resolved_url := Option.none, method := Method.none,
        http_status := st.status, final_url := some st.finalUrl }

/-- Whether `resolveOnce` runs `page.evaluate` (the DOM scan): exactly when the
fast path is not taken. -/
def resolveOnceDomInspected (st : PageState) : Bool :=
  if !(st.finalUrl == "") && !(strContains st.finalUrl "news.google.com") then false else true

/-! ### Simpler variant (`resolveGoogleNewsUrl` in server.js)

Its selector list differs: `a[rel="nofollow"]` and `a[target="_blank"]` carry
no `href^="http"` restriction, `document.querySelector` inspects only the first
match, and no rejection filter is applied to the four priority selectors; only
the final fallback over `a[href^="http"]` filters aggregator and account
domains. -/

/-- selector `a[rel="nofollow"]` (simpler variant, no href restriction). -/
def selNofollowS (a : Anchor) : Bool := a.rel == some "nofollow"

/-- selector `a[target="_blank"]` (simpler variant, no href restriction). -/
def selBlankS (a : Anchor) : Bool := a.target == some "_blank"

/-- `const a = document.querySelector(sel); if (a && a.href) return a.href;`—
yields the first matching anchor href when that anchor exists and its href is
truthy, otherwise falls through to the next selector. -/
def qsReturn (dom : List Anchor) (sel : Anchor → Bool) : Option String :=
  match (dom.filter sel).head? with
  | some a => if a.href == "" then Option.none else some a.href
  | Option.none => Option.none

/-- The simpler variant fallback:
`Array.from(document.querySelectorAll("a[href^="http"]")).map(a => a.href)
  .filter(h => h && !h.includes("news.google.com") && !h.includes("accounts.google.com"))`
followed by `links[0] || null`. -/
def simpleFallback (dom : List Anchor) : Option String :=
  (((dom.filter selAnyHttp).map (fun a => a.href)).filter
    (fun h => !(h == "") && !(strContains h "news.google.com")
      && !(strContains h "accounts.google.com"))).head?

/-- The simpler variant `page.evaluate` body. -/
def simpleExtract (dom : List Anchor) : Option String :=
  match qsReturn dom selNofollowS with
  | some h => some h
  | Option.none =>
    match qsReturn dom selBlankS with
    | some h => some h
    | Option.none =>
      match qsReturn dom selArticle with
      | some h => some h
      | Option.none =>
        match qsReturn dom selMainLm with
        | some h => some h
        | Option.none => simpleFallback dom

/-- The simpler variant returns `{ resolved_url, method, http_status }`;
it carries no `final_url` field. -/
structure SimpleResult where
  resolved_url : Option String
  method : Method
  http_status : Option Int
deriving DecidableEq

/-- The decision logic of `resolveGoogleNewsUrl` (simpler variant) as a
function of the observed page state. -/
def resolveSimpleResult (st : PageState) : SimpleResult :=
  if !(st.finalUrl == "") && !(strContains st.finalUrl "news.google.com") then
    { resolved_url := some st.finalUrl, method := Method.final_url, http_status := st.status }
  else
    match simpleExtract st.dom with
    | some u =>
      if u == "" then
        { resolved_url := Option.none, method := Method.none, http_status := st.status }
      else
        { resolved_url := some u, method := Method.dom_link, http_status := st.status }
    | Option.none =>
      { resolved_url := Option.none, method := Method.none, http_status := st.status }

/-- Whether `resolveGoogleNewsUrl` runs `page.evaluate`. -/
def simpleDomInspected (st : PageState) : Bool :=
  if !(st.finalUrl == "") && !(strContains st.finalUrl "news.google.com") then false else true

/-! ## Retry/Backoff Controller (`resolveWithRetries` in server.js)

The loop is modelled over an oracle assigning to each attempt number the
`AttemptResult` that `resolveOnce` would produce on that attempt.  Backoff
delays and jitter only affect timing and are not part of the observable
outcome.  The run records the list of attempt numbers actually performed, the
last attempt result (the JavaScript variable `last`), and the `attempt` field
of the returned object: the loop variable on the early-success `return`, and
the constant `maxAttempts` on the fall-through `return` after `break` or
budget exhaustion. -/

def maxAttempts : Nat := 4

/-- JavaScript truthiness of `last.resolved_url`. -/
def truthyUrl : Option String → Bool
  | some u => !(u == "")
  | Option.none => false

structure RetryRun where
  attemptsMade : List Nat
  last : AttemptResult
  attemptField : Nat
deriving DecidableEq

/-- The `for (let attempt = 1; attempt <= maxAttempts; attempt++)` loop with
`fuel` iterations remaining; `prev` is the current value of `last` (its initial
value `null` is never surfaced because `maxAttempts ≥ 1` means the body runs at
least once before any fall-through return). -/
def retryLoop (oracle : Nat → AttemptResult) : Nat → Nat → AttemptResult → RetryRun
  | 0, _, prev => { attemptsMade := [], last := prev, attemptField := maxAttempts }
  | fuel + 1, attempt, _ =>
    let r := oracle attempt
    if truthyUrl r.resolved_url then
      { attemptsMade := [attempt], last := r, attemptField := attempt }
    else if r.http_status == some 429 || r.http_status == some 503 then
      let rest := retryLoop oracle fuel (attempt + 1) r
      { attemptsMade := attempt :: rest.attemptsMade, last := rest.last,
        attemptField := rest.attemptField }
    else
      { attemptsMade := [attempt], last := r, attemptField := maxAttempts }

/-- Placeholder for the JavaScript `let last = null` initializer; unreachable
in `resolveWithRetries` because the loop body always runs first. -/
def nullInit : AttemptResult :=
  { ok := true, resolved_url := Option.none, method := Method.none,
    http_status := Option.none, final_url := Option.none }

/-- `resolveWithRetries`, given the oracle of per-attempt results. -/
def resolveWithRetries (oracle : Nat → AttemptResult) : RetryRun :=
  retryLoop oracle maxAttempts 1 nullInit

/-! ## HTTP surface: `POST /resolve` handlers -/

/-- The `google_news_url` member of the request body: absent, a string, or a
value of some other JSON type. -/
inductive BodyField
  | missing
  | str (s : String)
  | nonString
deriving DecidableEq

/-- `!google_news_url || typeof google_news_url !== "string"` — the handler
proceeds exactly when the field is a non-empty string. -/
def validBody : BodyField → Bool
  | BodyField.str s => !(s == "")
  | _ => false

def missingFieldError : String := "Missing google_news_url (string) in JSON body"

/-- Observable shape of a `/resolve` JSON response.  `Option`-typed members
model presence of the corresponding field in the JSON object. -/
structure ResolveResponse where
  status : Nat
  ok : Bool
  error : Option String
  blocked : Option Bool
  resolved_url : Option (Option String)
  method : Option Method
  attempt : Option Nat
deriving DecidableEq

/-- Whether the awaited pipeline body of the handler returned normally or
threw. -/
inductive PipelineOutcome
  | success (run : RetryRun)
  | thrown (msg : String)

/-- The full variant `app.post("/resolve", ...)` handler.  The second
component records whether any browser work was started (the handler reached
`waitForTurn`/`resolveWithRetries`).  `blocked` is `result.http_status === 429`
on the last attempt result. -/
def postResolveFull (body : BodyField) (pipeline : PipelineOutcome) :
    ResolveResponse × Bool :=
  if !(validBody body) then
    ({ status := 400, ok := false, error := some missingFieldError,
       blocked := Option.none, resolved_url := Option.none, method := Option.none,
       attempt := Option.none }, false)
  else
    match pipeline with
    | PipelineOutcome.success run =>
      ({ status := 200, ok := true, error := Option.none,
         blocked := some (run.last.http_status == some 429),
         resolved_url := some run.last.resolved_url, method := some run.last.method,
         attempt := some run.attemptField }, true)
    | PipelineOutcome.thrown msg =>
      ({ status := 500, ok := false, error := some msg,
         blocked := Option.none, resolved_url := Option.none, method := Option.none,
         attempt := Option.none }, true)

/-- Pipeline outcome of the simpler variant (one attempt, no retries). -/
inductive SimplePipelineOutcome
  | success (r : SimpleResult)
  | thrown (msg : String)

/-- The simpler variant `app.post("/resolve", ...)` handler: its success
response spreads only `{ resolved_url, method, http_status }` — no `blocked`
field and no `attempt` field. -/
def postResolveSimple (body : BodyField) (pipeline : SimplePipelineOutcome) :
    ResolveResponse × Bool :=
  if !(validBody body) then
    ({ status := 400, ok := false, error := some missingFieldError,
       blocked := Option.none, resolved_url := Option.none, method := Option.none,
       attempt := Option.none }, false)
  else
    match pipeline with
    | SimplePipelineOutcome.success r =>
      ({ status := 200, ok := true, error := Option.none,
         blocked := Option.none,
         resolved_url := some r.resolved_url, method := some r.method,
         attempt := Option.none }, true)
    | SimplePipelineOutcome.thrown msg =>
      ({ status := 500, ok := false, error := some msg,
         blocked := Option.none, resolved_url := Option.none, method := Option.none,
         attempt := Option.none }, true)

/-! ## Concurrency Gate (`waitForTurn` / `doneTurn`)

`waitForTurn` polls `while (active >= 1)` and then runs `active += 1` with no
suspension point between the check and the increment, so on the single-threaded
event loop the acquire transition fires only from counter `0`.  `doneTurn` runs
`active = Math.max(0, active - 1)`.  A trace is a list of completed gate
operations; `gateRun` returns `none` when an acquire cannot complete from the
given state (the poll would keep waiting). -/

inductive GateStep
  | acquire
  | release
deriving DecidableEq

/-- `doneTurn`: `active = Math.max(0, active - 1)`. -/
def doneTurn (n : Nat) : Nat := max 0 (n - 1)

/-- Completing one gate operation from counter state `n`. -/
def gateApply (n : Nat) : GateStep → Option Nat
  | GateStep.acquire => if n ≥ 1 then Option.none else some (n + 1)
  | GateStep.release => some (doneTurn n)

/-- Run a list of completed gate operations from counter state `n`. -/
def gateRun : Nat → List GateStep → Option Nat
  | n, [] => some n
  | n, s :: rest =>
    match gateApply n s with
    | some m => gateRun m rest
    | Option.none => Option.none

/-- Exit modes of the body of the full variant `/resolve` handler after a
valid body: `res.json` on success, or the `catch` branch on a thrown error. -/
inductive HandlerExit
  | success
  | thrown
deriving DecidableEq

/-- Gate operations performed by the full variant handler on a valid body:
`await waitForTurn()` first, and `doneTurn()` in the `finally` block on both
the success path and the exception path. -/
def handlerGateOps : HandlerExit → List GateStep
  | HandlerExit.success => [GateStep.acquire, GateStep.release]
  | HandlerExit.thrown => [GateStep.acquire, GateStep.release]


/-! ## Concrete test inputs used by the claim theorems -/

/-- Attempt result: HTTP 429, nothing resolved. -/
def r429 : AttemptResult :=
  { ok := true, resolved_url := Option.none, method := Method.none,
    http_status := some 429, final_url := Option.none }

/-- Attempt result: HTTP 503, nothing resolved. -/
def r503 : AttemptResult :=
  { ok := true, resolved_url := Option.none, method := Method.none,
    http_status := some 503, final_url := Option.none }

/-- Attempt result: clean HTTP 200 but no extractable link. -/
def r200none : AttemptResult :=
  { ok := true, resolved_url := Option.none, method := Method.none,
    http_status := some 200, final_url := Option.none }

/-- Attempt oracle observing statuses 429, 503, then 200 with no link. -/
def c2oracle : Nat → AttemptResult := fun i =>
  if i = 1 then r429 else if i = 2 then r503 else r200none

/-- The 400 validation response of both handlers. -/
def err400 : ResolveResponse :=
  { status := 400, ok := false, error := some missingFieldError,
    blocked := Option.none, resolved_url := Option.none, method := Option.none,
    attempt := Option.none }

/-- A page that stayed on the aggregator and whose only anchor is a
`rel="nofollow"` link pointing back at the aggregator. -/
def aggNofollowPage : PageState :=
  { finalUrl := "https://news.google.com/articles/abc", status := some 200,
    dom := [{ href := "https://news.google.com/rss/x", rel := some "nofollow",
              target := Option.none, inArticle := false, inMain := false }] }

/-- A page that stayed on the aggregator, with one aggregator-internal anchor
inside an `<article>` and one publisher anchor marked `rel="nofollow"`. -/
def mixedAnchorsPage : PageState :=
  { finalUrl := "https://news.google.com/articles/def", status := some 200,
    dom := [{ href := "https://news.google.com/topics/t", rel := Option.none,
              target := Option.none, inArticle := true, inMain := false },
            { href := "https://pub.example/story", rel := some "nofollow",
              target := Option.none, inArticle := false, inMain := false }] }

/-- A page with two `rel="nofollow"` anchors: the first points back at the
aggregator, the second at a publisher. -/
def twoNofollowPage : PageState :=
  { finalUrl := "https://news.google.com/articles/z", status := some 200,
    dom := [{ href := "https://news.google.com/y", rel := some "nofollow",
              target := Option.none, inArticle := false, inMain := false },
            { href := "https://publisher.example/a", rel := some "nofollow",
              target := Option.none, inArticle := false, inMain := false }] }

/-- A page with a new-tab anchor (inside both landmarks) appearing before a
`rel="nofollow"` publisher anchor in document order. -/
def prioNofollowPage : PageState :=
  { finalUrl := "https://news.google.com/articles/w", status := some 503,
    dom := [{ href := "https://other.example/blank", rel := Option.none,
              target := some "_blank", inArticle := true, inMain := true },
            { href := "https://publisher.example/story", rel := some "nofollow",
              target := Option.none, inArticle := false, inMain := false }] }

/-! ## Lemmas -/

lemma countSubstr_cons (h : Char) (t p : List Char) :
    countSubstr (h :: t) p = (if p <+: (h :: t) then 1 else 0) + countSubstr t p := rfl

lemma replaceFirst_of_count_zero {p r : List Char} :
    ∀ {s : List Char}, countSubstr s p = 0 → replaceFirst s p r = s := by
  intro s
  induction s with
  | nil => intro _; rfl
  | cons h t ih =>
    intro hc
    rw [countSubstr_cons] at hc
    by_cases hp : p <+: (h :: t)
    · rw [if_pos hp] at hc; omega
    · rw [if_neg hp] at hc
      unfold replaceFirst
      rw [if_neg hp, ih (by omega)]

lemma count_pos_of_append (a p b : List Char) (hp : p ≠ []) :
    0 < countSubstr (a ++ p ++ b) p := by
  induction a with
  | nil =>
    cases p with
    | nil => exact absurd rfl hp
    | cons ph pt =>
      rw [List.nil_append, List.cons_append, countSubstr_cons, if_pos]
      · omega
      · rw [← List.cons_append]; exact List.prefix_append _ _
  | cons c a' ih =>
    rw [List.cons_append, List.cons_append, countSubstr_cons]
    exact Nat.lt_of_lt_of_le ih (by rw [← List.cons_append, ← List.cons_append]; omega)

lemma infix_of_count_pos {s p : List Char} (h : 0 < countSubstr s p) : p <:+: s := by
  induction s with
  | nil => simp [countSubstr] at h
  | cons c t ih =>
    rw [countSubstr_cons] at h
    by_cases hp : p <+: (c :: t)
    · exact hp.isInfix
    · rw [if_neg hp] at h
      exact List.infix_cons_iff.mpr (Or.inr (ih (by omega)))


lemma occursAt_count_pos {p : List Char} (hp : p ≠ []) :
    ∀ {s : List Char} {i : Nat}, OccursAt s p i → 0 < countSubstr s p := by
  intro s
  induction s with
  | nil =>
    intro i h
    unfold OccursAt at h
    rw [List.drop_nil] at h
    exact absurd (List.prefix_nil.mp h) hp
  | cons c t ih =>
    intro i h
    rw [countSubstr_cons]
    cases i with
    | zero =>
      unfold OccursAt at h
      rw [List.drop_zero] at h
      rw [if_pos h]; omega
    | succ j =>
      unfold OccursAt at h
      rw [List.drop_succ_cons] at h
      have := ih (i := j) h
      omega

lemma occ_of_count_pos : ∀ {s p : List Char}, 0 < countSubstr s p → ∃ i, OccursAt s p i := by
  intro s p
  induction s with
  | nil => intro h; simp [countSubstr] at h
  | cons c t ih =>
    intro h
    rw [countSubstr_cons] at h
    by_cases hp : p <+: (c :: t)
    · exact ⟨0, by unfold OccursAt; rwa [List.drop_zero]⟩
    · rw [if_neg hp] at h
      obtain ⟨i, hi⟩ := ih (by omega)
      exact ⟨i + 1, by unfold OccursAt at hi ⊢; rwa [List.drop_succ_cons]⟩

lemma count_ge_two {p : List Char} (hp : p ≠ []) :
    ∀ {s : List Char} {i j : Nat}, i < j → OccursAt s p i → OccursAt s p j →
      2 ≤ countSubstr s p := by
  intro s
  induction s with
  | nil =>
    intro i j _ hi _
    unfold OccursAt at hi
    rw [List.drop_nil] at hi
    exact absurd (List.prefix_nil.mp hi) hp
  | cons c t ih =>
    intro i j hij hi hj
    rw [countSubstr_cons]
    obtain ⟨j', rfl⟩ : ∃ j', j = j' + 1 := ⟨j - 1, by omega⟩
    have hjt : OccursAt t p j' := by
      unfold OccursAt at hj ⊢; rwa [List.drop_succ_cons] at hj
    cases i with
    | zero =>
      unfold OccursAt at hi
      rw [List.drop_zero] at hi
      rw [if_pos hi]
      have := occursAt_count_pos hp hjt
      omega
    | succ i' =>
      have hit : OccursAt t p i' := by
        unfold OccursAt at hi ⊢; rwa [List.drop_succ_cons] at hi
      have := ih (by omega : i' < j') hit hjt
      omega

lemma two_occ_of_count : ∀ {s p : List Char}, 2 ≤ countSubstr s p →
    ∃ i j, i < j ∧ OccursAt s p i ∧ OccursAt s p j := by
  intro s p
  induction s with
  | nil => intro h; simp [countSubstr] at h
  | cons c t ih =>
    intro h
    rw [countSubstr_cons] at h
    by_cases hp : p <+: (c :: t)
    · rw [if_pos hp] at h
      obtain ⟨i, hi⟩ := occ_of_count_pos (s := t) (p := p) (by omega)
      refine ⟨0, i + 1, by omega, ?_, ?_⟩
      · unfold OccursAt; rwa [List.drop_zero]
      · unfold OccursAt at hi ⊢; rwa [List.drop_succ_cons]
    · rw [if_neg hp] at h
      obtain ⟨i, j, hij, hi, hj⟩ := ih (by omega)
      refine ⟨i + 1, j + 1, by omega, ?_, ?_⟩
      · unfold OccursAt at hi ⊢; rwa [List.drop_succ_cons]
      · unfold OccursAt at hj ⊢; rwa [List.drop_succ_cons]


lemma occursAt_append_mid (a p b : List Char) : OccursAt (a ++ p ++ b) p a.length := by
  unfold OccursAt
  rw [List.append_assoc, List.drop_left]
  exact List.prefix_append _ _

lemma occursAt_sub {s p q : List Char} {i k : Nat}
    (h : OccursAt s p i) (hq : q <+: p.drop k) : OccursAt s q (i + k) := by
  unfold OccursAt at h ⊢
  obtain ⟨c, hc⟩ := h
  have hd : s.drop (i + k) = p.drop k ++ c.drop (k - p.length) := by
    rw [← List.drop_drop, ← hc, List.drop_append_eq_append_drop]
  rw [hd]
  exact hq.trans (List.prefix_append _ _)

lemma occursAt_append_right {x z p : List Char} {i : Nat}
    (h : OccursAt x p i) : OccursAt (x ++ z) p i := by
  unfold OccursAt at h ⊢
  rw [List.drop_append_eq_append_drop]
  exact h.trans (List.prefix_append _ _)

lemma occursAt_append_left (x : List Char) {z p : List Char} {i : Nat}
    (h : OccursAt z p i) : OccursAt (x ++ z) p (x.length + i) := by
  unfold OccursAt at h ⊢
  rw [List.drop_append_eq_append_drop, List.drop_eq_nil_of_le (by omega),
    List.nil_append]
  have h2 : x.length + i - x.length = i := by omega
  rwa [h2]

lemma prefix_append_left {q x : List Char} (y : List Char)
    (hlen : q.length ≤ x.length) (h : q <+: x ++ y) : q <+: x := by
  rw [List.prefix_iff_eq_take] at h ⊢
  rw [List.take_append_eq_append_take] at h
  have h0 : q.length - x.length = 0 := by omega
  rwa [h0, List.take_zero, List.append_nil] at h

lemma prefix_append_split {q : List Char} :
    ∀ {x : List Char} (y : List Char), q <+: x ++ y →
      q <+: x ∨ ∃ q2, q = x ++ q2 ∧ q2 <+: y := by
  induction q with
  | nil => intro x y _; exact Or.inl List.nil_prefix
  | cons d q' ih =>
    intro x y h
    cases x with
    | nil => exact Or.inr ⟨d :: q', by simp, by simpa using h⟩
    | cons c x' =>
      rw [List.cons_append, List.cons_prefix_cons] at h
      obtain ⟨rfl, h'⟩ := h
      rcases ih y h' with h1 | ⟨q2, hq2, h2⟩
      · exact Or.inl (List.cons_prefix_cons.mpr ⟨rfl, h1⟩)
      · exact Or.inr ⟨q2, by rw [List.cons_append, ← hq2], h2⟩

lemma infix_append_split {q : List Char} :
    ∀ (x y : List Char), q <:+: x ++ y →
      q <:+: x ∨ q <:+: y ∨
        ∃ q1 q2, q = q1 ++ q2 ∧ q1 ≠ [] ∧ q2 ≠ [] ∧ q1 <:+ x ∧ q2 <+: y := by
  intro x
  induction x with
  | nil => intro y h; exact Or.inr (Or.inl (by simpa using h))
  | cons c x' ih =>
    intro y h
    rw [List.cons_append, List.infix_cons_iff] at h
    rcases h with hpre | hinf
    · rw [← List.cons_append] at hpre
      rcases prefix_append_split y hpre with h1 | ⟨q2, hq2, h2⟩
      · exact Or.inl h1.isInfix
      · by_cases hq2nil : q2 = []
        · subst hq2nil
          rw [List.append_nil] at hq2
          exact Or.inl (hq2 ▸ List.infix_refl _)
        · exact Or.inr (Or.inr ⟨c :: x', q2, hq2, by simp, hq2nil,
            List.suffix_refl _, h2⟩)
    · rcases ih y hinf with h1 | h2 | ⟨q1, q2, hq, hq1, hq2, hs, hpfx⟩
      · exact Or.inl (List.infix_cons_iff.mpr (Or.inr h1))
      · exact Or.inr (Or.inl h2)
      · exact Or.inr (Or.inr ⟨q1, q2, hq, hq1, hq2,
          hs.trans (List.suffix_cons c x'), hpfx⟩)

lemma rss_splits {q1 q2 : List Char} (h : q1 ++ q2 = RSS)
    (h1 : q1 ≠ []) (h2 : q2 ≠ []) :
    (q1 = "/".data ∧ q2 = "rss".data) ∨ (q1 = "/r".data ∧ q2 = "ss".data) ∨
      (q1 = "/rs".data ∧ q2 = "s".data) := by
  have hR : RSS = ['/', 'r', 's', 's'] := by decide
  rw [hR] at h
  rcases q1 with _ | ⟨a, _ | ⟨b, _ | ⟨c, _ | ⟨d, rest⟩⟩⟩⟩
  · exact absurd rfl h1
  · simp only [List.cons_append, List.nil_append, List.cons.injEq] at h
    obtain ⟨rfl, rfl⟩ := h
    exact Or.inl ⟨by decide, by decide⟩
  · simp only [List.cons_append, List.nil_append, List.cons.injEq] at h
    obtain ⟨rfl, rfl, rfl⟩ := h
    exact Or.inr (Or.inl ⟨by decide, by decide⟩)
  · simp only [List.cons_append, List.nil_append, List.cons.injEq] at h
    obtain ⟨rfl, rfl, rfl, rfl⟩ := h
    exact Or.inr (Or.inr ⟨by decide, by decide⟩)
  · simp only [List.cons_append, List.nil_append, List.cons.injEq] at h
    obtain ⟨rfl, rfl, rfl, rfl, hrest⟩ := h
    exact absurd (List.append_eq_nil.mp hrest).2 h2


lemma rss_ne_nil : RSS ≠ [] := by decide

lemma no_rss_in_replaced {c d r : List Char}
    (hc : ¬ RSS <:+: c) (hd : ¬ RSS <:+: d) (hdr : ¬ ("rss".data <+: d))
    (hr1 : ¬ RSS <:+: r)
    (hr2 : ¬ ("rss".data <+: r)) (hr3 : ¬ ("ss".data <+: r))
    (hr4 : ¬ ("s".data <+: r))
    (hr5 : ¬ ("/r".data <:+ r)) (hr6 : ¬ ("/rs".data <:+ r))
    (hrlen : 3 ≤ r.length) :
    countSubstr (c ++ r ++ d) RSS = 0 := by
  by_contra h
  have hpos : 0 < countSubstr (c ++ r ++ d) RSS := Nat.pos_of_ne_zero h
  have hinf : RSS <:+: (c ++ (r ++ d)) := by
    rw [← List.append_assoc]; exact infix_of_count_pos hpos
  rcases infix_append_split c (r ++ d) hinf with h1 | h2 | ⟨q1, q2, hq, hq1, hq2, _, hpfx⟩
  · exact hc h1
  · rcases infix_append_split r d h2 with g1 | g2 | ⟨p1, p2, hpq, hp1, hp2, gs, gp⟩
    · exact hr1 g1
    · exact hd g2
    · rcases rss_splits hpq.symm hp1 hp2 with ⟨e1, e2⟩ | ⟨e1, e2⟩ | ⟨e1, e2⟩
      · exact hdr (e2 ▸ gp)
      · exact hr5 (e1 ▸ gs)
      · exact hr6 (e1 ▸ gs)
  · rcases rss_splits hq.symm hq1 hq2 with ⟨e1, e2⟩ | ⟨e1, e2⟩ | ⟨e1, e2⟩
    · refine hr2 (prefix_append_left d ?_ (e2 ▸ hpfx))
      have h3 : ("rss".data).length = 3 := by decide
      omega
    · refine hr3 (prefix_append_left d ?_ (e2 ▸ hpfx))
      have h3 : ("ss".data).length = 2 := by decide
      omega
    · refine hr4 (prefix_append_left d ?_ (e2 ▸ hpfx))
      have h3 : ("s".data).length = 1 := by decide
      omega


lemma side_conditions {s c d p : List Char} {k : Nat}
    (hs : s = c ++ p ++ d) (hcount : countSubstr s RSS ≤ 1)
    (hk : RSS <+: p.drop k) (hklen : k + 4 ≤ p.length) :
    ¬ RSS <:+: c ∧ ¬ RSS <:+: d ∧
      (p.drop (p.length - 1) = "/".data → k < p.length - 1 → ¬ ("rss".data <+: d)) := by
  have hocc : OccursAt s RSS (c.length + k) :=
    hs ▸ occursAt_sub (occursAt_append_mid c p d) hk
  refine ⟨?_, ?_, ?_⟩
  · intro hin
    obtain ⟨e, f, hef⟩ := hin
    have hoc : OccursAt c RSS e.length := hef ▸ occursAt_append_mid e RSS f
    have hos : OccursAt s RSS e.length := by
      rw [hs, List.append_assoc]
      exact occursAt_append_right (z := p ++ d) hoc
    have helen : e.length < c.length := by
      have := congrArg List.length hef
      simp [List.length_append] at this
      have h4 : RSS.length = 4 := by decide
      omega
    have := count_ge_two rss_ne_nil (by omega : e.length < c.length + k) hos hocc
    omega
  · intro hin
    obtain ⟨e, f, hef⟩ := hin
    have hoc : OccursAt d RSS e.length := hef ▸ occursAt_append_mid e RSS f
    have hos : OccursAt s RSS ((c ++ p).length + e.length) := by
      rw [hs]
      exact occursAt_append_left (c ++ p) hoc
    have hlen2 : (c ++ p).length = c.length + p.length := by
      simp [List.length_append]
    have := count_ge_two rss_ne_nil
      (by omega : c.length + k < (c ++ p).length + e.length) hocc hos
    omega
  · intro hlast hklt hrd
    have hop : OccursAt (p ++ d) RSS (p.length - 1) := by
      unfold OccursAt
      rw [List.drop_append_eq_append_drop, hlast,
        (by omega : p.length - 1 - p.length = 0), List.drop_zero]
      have hR : RSS = '/' :: "rss".data := by decide
      have hslash : ("/".data : List Char) = ['/'] := by decide
      rw [hR, hslash]
      simpa [List.cons_prefix_cons] using hrd
    have hos : OccursAt s RSS (c.length + (p.length - 1)) := by
      rw [hs, List.append_assoc]
      exact occursAt_append_left c hop
    have := count_ge_two rss_ne_nil
      (by omega : c.length + k < c.length + (p.length - 1)) hocc hos
    omega

lemma count_pattern_eq_one {s c d p u v : List Char}
    (hs : s = c ++ p ++ d) (hcount : countSubstr s RSS ≤ 1)
    (hpuv : p = u ++ RSS ++ v) :
    countSubstr s p = 1 := by
  have hp : p ≠ [] := by
    rw [hpuv]
    intro he
    have := (List.append_eq_nil.mp he).1
    exact rss_ne_nil (List.append_eq_nil.mp this).2
  have h1 : 0 < countSubstr s p := hs ▸ count_pos_of_append c p d hp
  have h2 : countSubstr s p ≤ 1 := by
    by_contra hgt
    obtain ⟨i, j, hij, hi, hj⟩ := two_occ_of_count (by omega : 2 ≤ countSubstr s p)
    have hkp : RSS <+: p.drop u.length := by
      rw [hpuv, List.append_assoc, List.drop_left]
      exact List.prefix_append _ _
    have gi := occursAt_sub hi hkp
    have gj := occursAt_sub hj hkp
    have := count_ge_two rss_ne_nil (by omega : i + u.length < j + u.length) gi gj
    omega
  omega

lemma count_pattern_zero {s p u v : List Char} (hpuv : p = u ++ RSS ++ v)
    (h : countSubstr s RSS = 0) : countSubstr s p = 0 := by
  by_contra hne
  obtain ⟨a, b, hab⟩ := infix_of_count_pos (Nat.pos_of_ne_zero hne)
  have hpos : 0 < countSubstr s RSS := by
    rw [← hab, hpuv]
    have he : a ++ (u ++ RSS ++ v) ++ b = (a ++ u) ++ RSS ++ (v ++ b) := by
      simp [List.append_assoc]
    rw [he]
    exact count_pos_of_append _ _ _ rss_ne_nil
  omega

lemma replaceFirst_decomp {p : List Char} (r : List Char) (hp : p ≠ []) :
    ∀ {a b : List Char}, countSubstr (a ++ p ++ b) p = 1 →
      replaceFirst (a ++ p ++ b) p r = a ++ r ++ b := by
  intro a
  induction a with
  | nil =>
    intro b _
    cases p with
    | nil => exact absurd rfl hp
    | cons ph pt =>
      rw [List.nil_append, List.nil_append, List.cons_append]
      unfold replaceFirst
      rw [if_pos (by rw [← List.cons_append]; exact List.prefix_append _ _)]
      congr 1
      rw [← List.cons_append, List.drop_left]
  | cons c a' ih =>
    intro b h
    rw [List.cons_append, List.cons_append] at h ⊢
    rw [countSubstr_cons] at h
    have hpos : 0 < countSubstr (a' ++ p ++ b) p := count_pos_of_append a' p b hp
    have hnp : ¬ (p <+: c :: (a' ++ p ++ b)) := by
      intro hcon
      rw [if_pos hcon] at h
      omega
    rw [if_neg hnp] at h
    unfold replaceFirst
    rw [if_neg hnp, ih (by omega)]
    rfl

lemma P1_decomp : P1 = "https://news.google.com".data ++ RSS ++ "/articles/".data := by decide

lemma P2_decomp : P2 = "http://news.google.com".data ++ RSS ++ "/articles/".data := by decide

lemma P3_decomp : P3 = ([] : List Char) ++ RSS ++ "/articles/".data := by decide

lemma normalize_of_no_rss {s : List Char} (h : countSubstr s RSS = 0) :
    normalizeGoogleNewsUrl s = s := by
  have e1 : replaceFirst s P1 RA = s :=
    replaceFirst_of_count_zero (count_pattern_zero P1_decomp h)
  have e2 : replaceFirst s P2 RA = s :=
    replaceFirst_of_count_zero (count_pattern_zero P2_decomp h)
  have e3 : replaceFirst s P3 R3 = s :=
    replaceFirst_of_count_zero (count_pattern_zero P3_decomp h)
  unfold normalizeGoogleNewsUrl
  by_cases hs : s = []
  · rw [if_pos hs]
  · rw [if_neg hs, e1, e2, e3]


lemma goodLinks_head_good {dom : List Anchor} {sel : Anchor → Bool} {h : String}
    {t : List String} (e : goodLinks dom sel = h :: t) : badHref h = false := by
  have hm : h ∈ goodLinks dom sel := by rw [e]; exact List.mem_cons_self _ _
  unfold goodLinks at hm
  have hf := List.of_mem_filter hm
  simpa using hf

lemma extractOutbound_good {dom : List Anchor} {u : String}
    (h : extractOutbound dom = some u) : badHref u = false := by
  unfold extractOutbound at h
  cases e1 : goodLinks dom selNofollow with
  | cons a t =>
    rw [e1] at h
    simp only [Option.some.injEq] at h
    exact h ▸ goodLinks_head_good e1
  | nil =>
    rw [e1] at h
    cases e2 : goodLinks dom selBlank with
    | cons a t =>
      rw [e2] at h
      simp only [Option.some.injEq] at h
      exact h ▸ goodLinks_head_good e2
    | nil =>
      rw [e2] at h
      cases e3 : goodLinks dom selArticle with
      | cons a t =>
        rw [e3] at h
        simp only [Option.some.injEq] at h
        exact h ▸ goodLinks_head_good e3
      | nil =>
        rw [e3] at h
        cases e4 : goodLinks dom selMainLm with
        | cons a t =>
          rw [e4] at h
          simp only [Option.some.injEq] at h
          exact h ▸ goodLinks_head_good e4
        | nil =>
          rw [e4] at h
          cases e5 : goodLinks dom selAnyHttp with
          | cons a t =>
            rw [e5] at h
            simp only [Option.some.injEq] at h
            exact h ▸ goodLinks_head_good e5
          | nil =>
            rw [e5] at h
            cases h

lemma gateRun_le_one :
    ∀ (ops : List GateStep) (a b : Nat), a ≤ 1 → gateRun a ops = some b → b ≤ 1 := by
  intro ops
  induction ops with
  | nil =>
    intro a b ha h
    unfold gateRun at h
    injection h with h
    omega
  | cons s rest ih =>
    intro a b ha h
    unfold gateRun at h
    cases s with
    | acquire =>
      unfold gateApply at h
      by_cases h1 : a ≥ 1
      · rw [if_pos h1] at h
        simp at h
      · rw [if_neg h1] at h
        exact ih (a + 1) b (by omega) h
    | release =>
      unfold gateApply at h
      refine ih (doneTurn a) b ?_ h
      unfold doneTurn
      omega

lemma resolveOnceResult_dom_link {st : PageState} {u : String}
    (hm : (resolveOnceResult st).method = Method.dom_link)
    (hu : (resolveOnceResult st).resolved_url = some u) :
    extractOutbound st.dom = some u := by
  unfold resolveOnceResult at hm hu
  by_cases hf : (!(st.finalUrl == "") && !(strContains st.finalUrl "news.google.com")) = true
  · rw [if_pos hf] at hm
    simp at hm
  · rw [if_neg hf] at hm hu
    cases e : extractOutbound st.dom with
    | none =>
      rw [e] at hm
      simp at hm
    | some v =>
      rw [e] at hm hu
      by_cases hv : (v == "") = true
      · simp only [hv, if_true] at hm
        simp at hm
      · rw [Bool.not_eq_true] at hv
        simp only [hv, Bool.false_eq_true, if_false] at hu
        simp at hu
        rw [hu]


/-! ## Claim theorems -/

/-- Claim C1, counterexample: the URL Normalizer is not idempotent.  On the
string "/rss/articles//rss/articles/" one application rewrites only the first
"/rss/articles/" segment, so a second application changes the result again. -/
theorem c1_normalizer_not_idempotent_cx :
    normalizeGoogleNewsUrl
        (normalizeGoogleNewsUrl "/rss/articles//rss/articles/".data)
      ≠ normalizeGoogleNewsUrl "/rss/articles//rss/articles/".data := by decide

/-- Claim C1, amended: `normalize(normalize(x)) = normalize(x)` holds for every
string `x` in which the substring "/rss" occurs at most once — in particular
for every well-formed Google News RSS link; each `replace` rewrites only the
first occurrence of its pattern, so repeated "/rss/articles/" segments break
idempotence in general. -/
theorem c1_normalizer_idempotent_single_rss (s : List Char)
    (h : countSubstr s RSS ≤ 1) :
    normalizeGoogleNewsUrl (normalizeGoogleNewsUrl s) = normalizeGoogleNewsUrl s := by
  by_cases h1 : 0 < countSubstr s P1
  · obtain ⟨c, d, hcd⟩ := infix_of_count_pos h1
    have hs : s = c ++ P1 ++ d := hcd.symm
    have hone : countSubstr s P1 = 1 := count_pattern_eq_one hs h P1_decomp
    have e1 : replaceFirst s P1 RA = c ++ RA ++ d := by
      rw [hs]
      exact replaceFirst_decomp RA (by decide) (by rw [← hs]; exact hone)
    have hk : RSS <+: P1.drop 23 := by decide
    obtain ⟨hc, hd, hjun⟩ := side_conditions hs h hk (by decide)
    have hdr : ¬ ("rss".data <+: d) := hjun (by decide) (by decide)
    have hzero : countSubstr (c ++ RA ++ d) RSS = 0 := by
      refine no_rss_in_replaced hc hd hdr ?_ ?_ ?_ ?_ ?_ ?_ ?_ <;> decide
    have e2 : replaceFirst (c ++ RA ++ d) P2 RA = c ++ RA ++ d :=
      replaceFirst_of_count_zero (count_pattern_zero P2_decomp hzero)
    have e3 : replaceFirst (c ++ RA ++ d) P3 R3 = c ++ RA ++ d :=
      replaceFirst_of_count_zero (count_pattern_zero P3_decomp hzero)
    have hsne : s ≠ [] := by
      rw [hs]
      intro he
      have h12 := List.append_eq_nil.mp he
      have hP := (List.append_eq_nil.mp h12.1).2
      exact (by decide : P1 ≠ []) hP
    have hnorm : normalizeGoogleNewsUrl s = c ++ RA ++ d := by
      unfold normalizeGoogleNewsUrl
      rw [if_neg hsne, e1, e2, e3]
    rw [hnorm, normalize_of_no_rss hzero]
  · by_cases h2 : 0 < countSubstr s P2
    · obtain ⟨c, d, hcd⟩ := infix_of_count_pos h2
      have hs : s = c ++ P2 ++ d := hcd.symm
      have hone : countSubstr s P2 = 1 := count_pattern_eq_one hs h P2_decomp
      have e0 : replaceFirst s P1 RA = s :=
        replaceFirst_of_count_zero (Nat.eq_zero_of_not_pos h1)
      have e1 : replaceFirst s P2 RA = c ++ RA ++ d := by
        rw [hs]
        exact replaceFirst_decomp RA (by decide) (by rw [← hs]; exact hone)
      have hk : RSS <+: P2.drop 22 := by decide
      obtain ⟨hc, hd, hjun⟩ := side_conditions hs h hk (by decide)
      have hdr : ¬ ("rss".data <+: d) := hjun (by decide) (by decide)
      have hzero : countSubstr (c ++ RA ++ d) RSS = 0 := by
        refine no_rss_in_replaced hc hd hdr ?_ ?_ ?_ ?_ ?_ ?_ ?_ <;> decide
      have e3 : replaceFirst (c ++ RA ++ d) P3 R3 = c ++ RA ++ d :=
        replaceFirst_of_count_zero (count_pattern_zero P3_decomp hzero)
      have hsne : s ≠ [] := by
        rw [hs]
        intro he
        have h12 := List.append_eq_nil.mp he
        have hP := (List.append_eq_nil.mp h12.1).2
        exact (by decide : P2 ≠ []) hP
      have hnorm : normalizeGoogleNewsUrl s = c ++ RA ++ d := by
        unfold normalizeGoogleNewsUrl
        rw [if_neg hsne, e0, e1, e3]
      rw [hnorm, normalize_of_no_rss hzero]
    · by_cases h3 : 0 < countSubstr s P3
      · obtain ⟨c, d, hcd⟩ := infix_of_count_pos h3
        have hs : s = c ++ P3 ++ d := hcd.symm
        have hone : countSubstr s P3 = 1 := count_pattern_eq_one hs h P3_decomp
        have e0 : replaceFirst s P1 RA = s :=
          replaceFirst_of_count_zero (Nat.eq_zero_of_not_pos h1)
        have e0b : replaceFirst s P2 RA = s :=
          replaceFirst_of_count_zero (Nat.eq_zero_of_not_pos h2)
        have e1 : replaceFirst s P3 R3 = c ++ R3 ++ d := by
          rw [hs]
          exact replaceFirst_decomp R3 (by decide) (by rw [← hs]; exact hone)
        have hk : RSS <+: P3.drop 0 := by decide
        obtain ⟨hc, hd, hjun⟩ := side_conditions hs h hk (by decide)
        have hdr : ¬ ("rss".data <+: d) := hjun (by decide) (by decide)
        have hzero : countSubstr (c ++ R3 ++ d) RSS = 0 := by
          refine no_rss_in_replaced hc hd hdr ?_ ?_ ?_ ?_ ?_ ?_ ?_ <;> decide
        have hsne : s ≠ [] := by
          rw [hs]
          intro he
          have h12 := List.append_eq_nil.mp he
          have hP := (List.append_eq_nil.mp h12.1).2
          exact (by decide : P3 ≠ []) hP
        have hnorm : normalizeGoogleNewsUrl s = c ++ R3 ++ d := by
          unfold normalizeGoogleNewsUrl
          rw [if_neg hsne, e0, e0b, e1]
        rw [hnorm, normalize_of_no_rss hzero]
      · have hn : normalizeGoogleNewsUrl s = s := by
          unfold normalizeGoogleNewsUrl
          by_cases hs0 : s = []
          · rw [if_pos hs0]
          · rw [if_neg hs0,
              replaceFirst_of_count_zero (Nat.eq_zero_of_not_pos h1),
              replaceFirst_of_count_zero (Nat.eq_zero_of_not_pos h2),
              replaceFirst_of_count_zero (Nat.eq_zero_of_not_pos h3)]
        rw [hn]
        exact hn

/-- Claim C1, witness: a canonical RSS article link has a single "/rss"
occurrence and normalizing it twice equals normalizing it once. -/
theorem c1_normalizer_idempotent_single_rss_witness :
    countSubstr "https://news.google.com/rss/articles/ABC?oc=5".data RSS ≤ 1 ∧
    normalizeGoogleNewsUrl
        (normalizeGoogleNewsUrl "https://news.google.com/rss/articles/ABC?oc=5".data)
      = normalizeGoogleNewsUrl "https://news.google.com/rss/articles/ABC?oc=5".data :=
  ⟨by decide, c1_normalizer_idempotent_single_rss _ (by decide)⟩

/-- Claim C2, counterexample: on attempt statuses 429, 503, 200-no-link the
controller performs exactly 3 attempts and returns the third result, but the
returned `attempt` field is `maxAttempts` (4), not 3: the fall-through return
after `break` labels the outcome with `attempt: maxAttempts`. -/
theorem c2_attempt_field_cx :
    (resolveWithRetries c2oracle).attemptsMade = [1, 2, 3] ∧
    (resolveWithRetries c2oracle).last = c2oracle 3 ∧
    (resolveWithRetries c2oracle).attemptField = 4 ∧
    (resolveWithRetries c2oracle).attemptField ≠ 3 := by decide

/-- Claim C2, amended: for attempts observing 429, then 503, then 200 with no
extractable link, exactly attempts 1, 2, 3 run (no 4th), and the outcome is
the third attempt result — carrying `attempt = 4` (the attempt budget), not 3,
because the non-retryable exit reuses the fall-through return. -/
theorem c2_three_attempts_result (oracle : Nat → AttemptResult)
    (h1s : (oracle 1).http_status = some 429) (h1u : truthyUrl (oracle 1).resolved_url = false)
    (h2s : (oracle 2).http_status = some 503) (h2u : truthyUrl (oracle 2).resolved_url = false)
    (h3s : (oracle 3).http_status = some 200) (h3u : truthyUrl (oracle 3).resolved_url = false) :
    resolveWithRetries oracle =
      { attemptsMade := [1, 2, 3], last := oracle 3, attemptField := 4 } := by
  simp [resolveWithRetries, retryLoop, maxAttempts, h1s, h1u, h2s, h2u, h3s, h3u]

/-- Claim C2, witness: the amended statement at the concrete 429/503/200
oracle. -/
theorem c2_three_attempts_result_witness :
    resolveWithRetries c2oracle =
      { attemptsMade := [1, 2, 3], last := c2oracle 3, attemptField := 4 } :=
  c2_three_attempts_result c2oracle rfl rfl rfl rfl rfl rfl

/-- Claim C3, counterexample: in the simpler variant the `rel="nofollow"`
selector applies no rejection filter, so a DOM whose only anchor is a nofollow
link back to the aggregator yields `method = dom_link` with a URL containing
"news.google.com". -/
theorem c3_simple_variant_filter_cx :
    (resolveSimpleResult aggNofollowPage).method = Method.dom_link ∧
    (resolveSimpleResult aggNofollowPage).resolved_url = some "https://news.google.com/rss/x" ∧
    strContains "https://news.google.com/rss/x" "news.google.com" = true := by decide

/-- Claim C3, amended: in the full variant every URL returned with
`method = dom_link` passes the rejection filter — it contains neither the
aggregator domain nor the account domain and does not use the script
pseudo-protocol — for every DOM and every selector, because `resolveOnce`
filters every selector round; the simpler variant filters only its final
any-absolute-anchor fallback. -/
theorem c3_full_variant_dom_link_filtered (st : PageState) (u : String)
    (hm : (resolveOnceResult st).method = Method.dom_link)
    (hu : (resolveOnceResult st).resolved_url = some u) :
    strContains u "news.google.com" = false ∧
      strContains u "accounts.google.com" = false ∧
      strStartsWith u "javascript:" = false := by
  have hbad := extractOutbound_good (resolveOnceResult_dom_link hm hu)
  unfold badHref at hbad
  simp only [Bool.or_eq_false_iff] at hbad
  exact ⟨hbad.1.1.2, hbad.1.2, hbad.2⟩

/-- Claim C3, witness: a mixed DOM on the aggregator page resolves via
`dom_link` to a publisher URL passing all three filter conditions. -/
theorem c3_full_variant_dom_link_filtered_witness :
    (resolveOnceResult mixedAnchorsPage).method = Method.dom_link ∧
    (resolveOnceResult mixedAnchorsPage).resolved_url = some "https://pub.example/story" ∧
    strContains "https://pub.example/story" "news.google.com" = false ∧
    strContains "https://pub.example/story" "accounts.google.com" = false ∧
    strStartsWith "https://pub.example/story" "javascript:" = false := by
  have h := c3_full_variant_dom_link_filtered mixedAnchorsPage "https://pub.example/story"
    (by decide) (by decide)
  exact ⟨by decide, by decide, h.1, h.2.1, h.2.2⟩

/-- Claim C4, confirmed: when every attempt observes HTTP 429 and resolves
nothing, exactly attempts 1-4 run (never a 5th) and the outcome is the 4th
attempt result with `attempt = 4`. -/
theorem c4_four_blocked_attempts (oracle : Nat → AttemptResult)
    (h : ∀ i, 1 ≤ i → i ≤ 4 →
      (oracle i).http_status = some 429 ∧ truthyUrl (oracle i).resolved_url = false) :
    resolveWithRetries oracle =
      { attemptsMade := [1, 2, 3, 4], last := oracle 4, attemptField := 4 } := by
  have h1 := h 1 (by omega) (by omega)
  have h2 := h 2 (by omega) (by omega)
  have h3 := h 3 (by omega) (by omega)
  have h4 := h 4 (by omega) (by omega)
  simp [resolveWithRetries, retryLoop, maxAttempts,
    h1.1, h1.2, h2.1, h2.2, h3.1, h3.2, h4.1, h4.2]

/-- Claim C4, witness: the constant all-429 oracle. -/
theorem c4_four_blocked_attempts_witness :
    resolveWithRetries (fun _ => r429) =
      { attemptsMade := [1, 2, 3, 4], last := r429, attemptField := 4 } :=
  c4_four_blocked_attempts _ (fun _ _ _ => ⟨rfl, rfl⟩)

/-- Claim C5, counterexample: the simpler variant handler produces 200
responses with no `blocked` field at all, even when the observed status is
429. -/
theorem c5_simple_variant_no_blocked_cx :
    (postResolveSimple (BodyField.str "u") (SimplePipelineOutcome.success
      { resolved_url := Option.none, method := Method.none, http_status := some 429 })).1.status
        = 200 ∧
    (postResolveSimple (BodyField.str "u") (SimplePipelineOutcome.success
      { resolved_url := Option.none, method := Method.none, http_status := some 429 })).1.blocked
        = Option.none := ⟨rfl, rfl⟩

/-- Claim C5, amended: in the full variant every 200 response of
`POST /resolve` carries a `blocked` field equal to
`last attempt http_status == 429`, and it is `true` exactly when that status
is 429; the simpler variant omits the field. -/
theorem c5_full_variant_blocked_iff_429 (body : BodyField) (p : PipelineOutcome)
    (h200 : (postResolveFull body p).1.status = 200) :
    ∃ run, p = PipelineOutcome.success run ∧
      (postResolveFull body p).1.blocked = some (run.last.http_status == some 429) ∧
      ((postResolveFull body p).1.blocked = some true ↔ run.last.http_status = some 429) := by
  unfold postResolveFull at h200 ⊢
  by_cases hv : (!(validBody body)) = true
  · rw [if_pos hv] at h200
    simp at h200
  · rw [if_neg hv] at h200 ⊢
    cases p with
    | success run =>
      refine ⟨run, rfl, rfl, ?_⟩
      simp
    | thrown msg => simp at h200

/-- Claim C5, witness: a successful run whose last status is 429 yields a 200
response with `blocked = some true`. -/
theorem c5_full_variant_blocked_iff_429_witness :
    ∃ run, PipelineOutcome.success { attemptsMade := [1], last := r429, attemptField := 1 }
        = PipelineOutcome.success run ∧
      (postResolveFull (BodyField.str "u")
          (PipelineOutcome.success { attemptsMade := [1], last := r429, attemptField := 1 })).1.blocked
        = some (run.last.http_status == some 429) ∧
      ((postResolveFull (BodyField.str "u")
          (PipelineOutcome.success { attemptsMade := [1], last := r429, attemptField := 1 })).1.blocked
        = some true ↔ run.last.http_status = some 429) :=
  c5_full_variant_blocked_iff_429 _ _ rfl

/-- Claim C6, counterexample: the fast-path guard is
`finalUrl && !finalUrl.includes(...)`, so the empty final URL — which does not
contain the aggregator host — still falls through to the DOM scan instead of
being returned as `final_url`. -/
theorem c6_empty_final_url_cx :
    strContains "" "news.google.com" = false ∧
    resolveOnceDomInspected { finalUrl := "", status := Option.none, dom := [] } = true ∧
    (resolveOnceResult { finalUrl := "", status := Option.none, dom := [] }).method
      ≠ Method.final_url ∧
    simpleDomInspected { finalUrl := "", status := Option.none, dom := [] } = true := by decide

/-- Claim C6, amended: for every page state whose final URL is non-empty, the
fast path applies exactly when the URL does not contain "news.google.com"
anywhere: then both variants return that URL with `method = final_url` and run
no DOM inspection; whenever the URL does contain the aggregator host, the DOM
scan runs instead. -/
theorem c6_fast_path (st : PageState) :
    (st.finalUrl ≠ "" → strContains st.finalUrl "news.google.com" = false →
      (resolveOnceResult st =
        { ok := true, resolved_url := some st.finalUrl, method := Method.final_url,
          http_status := st.status, final_url := some st.finalUrl } ∧
       resolveOnceDomInspected st = false ∧
       resolveSimpleResult st =
        { resolved_url := some st.finalUrl, method := Method.final_url,
          http_status := st.status } ∧
       simpleDomInspected st = false)) ∧
    (strContains st.finalUrl "news.google.com" = true →
      resolveOnceDomInspected st = true ∧ simpleDomInspected st = true) := by
  constructor
  · intro hne hc
    have hcond : (!(st.finalUrl == "") && !(strContains st.finalUrl "news.google.com")) = true := by
      simp [hne, hc]
    unfold resolveOnceResult resolveOnceDomInspected resolveSimpleResult simpleDomInspected
    simp [hcond]
  · intro hc
    unfold resolveOnceDomInspected simpleDomInspected
    simp [hc]

/-- Claim C6, witness: the spec §8 example — landing on
"https://example.com/story" resolves by `final_url` with no DOM inspection in
both variants. -/
theorem c6_fast_path_witness :
    resolveOnceResult { finalUrl := "https://example.com/story", status := some 200, dom := [] } =
      { ok := true, resolved_url := some "https://example.com/story",
        method := Method.final_url, http_status := some 200,
        final_url := some "https://example.com/story" } ∧
    resolveOnceDomInspected
        { finalUrl := "https://example.com/story", status := some 200, dom := [] } = false ∧
    resolveSimpleResult
        { finalUrl := "https://example.com/story", status := some 200, dom := [] } =
      { resolved_url := some "https://example.com/story", method := Method.final_url,
        http_status := some 200 } ∧
    simpleDomInspected
        { finalUrl := "https://example.com/story", status := some 200, dom := [] } = false :=
  (c6_fast_path _).1 (by decide) (by decide)

/-- Claim C7, confirmed: a missing, non-string, or empty-string
`google_news_url` makes both handlers answer 400 with `ok: false` and the
exact documented error message, and no resolution attempt is started (second
tuple component `false`). -/
theorem c7_invalid_body_rejected (body : BodyField) (p : PipelineOutcome)
    (ps : SimplePipelineOutcome)
    (h : body = BodyField.missing ∨ body = BodyField.nonString ∨ body = BodyField.str "") :
    postResolveFull body p = (err400, false) ∧
      postResolveSimple body ps = (err400, false) := by
  rcases h with rfl | rfl | rfl <;> exact ⟨rfl, rfl⟩

/-- Claim C7, witness: the missing-field case. -/
theorem c7_invalid_body_rejected_witness :
    postResolveFull BodyField.missing
        (PipelineOutcome.success { attemptsMade := [], last := nullInit, attemptField := 4 })
      = (err400, false) ∧
    postResolveSimple BodyField.missing (SimplePipelineOutcome.thrown "boom")
      = (err400, false) :=
  c7_invalid_body_rejected _ _ _ (Or.inl rfl)

/-- Claim C8, counterexample: in the simpler variant the nofollow selector
returns the first matching anchor unfiltered, so even though the DOM contains
an absolute nofollow publisher anchor passing the rejection filter, the
extractor returns the earlier aggregator-bound nofollow href, which fails the
filter. -/
theorem c8_simple_variant_nofollow_unfiltered_cx :
    (∃ a ∈ twoNofollowPage.dom, selNofollow a = true ∧ badHref a.href = false) ∧
    resolveSimpleResult twoNofollowPage =
      { resolved_url := some "https://news.google.com/y", method := Method.dom_link,
        http_status := some 200 } ∧
    badHref "https://news.google.com/y" = true := by decide

/-- Claim C8, amended: in the full variant, whenever the fast path does not
apply and the filtered nofollow selector round is non-empty, `resolveOnce`
returns its first link with `method = dom_link`, for every DOM — in
particular regardless of any anchors matching the lower-priority new-tab,
article, main, or any-absolute selectors, so the priority order is respected;
in the simpler variant the nofollow and new-tab selectors are applied without
the rejection filter or the absolute-href restriction. -/
theorem c8_nofollow_priority (st : PageState) (h : String) (t : List String)
    (hfast : strContains st.finalUrl "news.google.com" = true)
    (hnf : goodLinks st.dom selNofollow = h :: t) :
    resolveOnceResult st =
      { ok := true, resolved_url := some h, method := Method.dom_link,
        http_status := st.status, final_url := some st.finalUrl } := by
  have hcond : ¬ ((!(st.finalUrl == "") && !(strContains st.finalUrl "news.google.com")) = true) := by
    simp [hfast]
  have hext : extractOutbound st.dom = some h := by
    unfold extractOutbound
    rw [hnf]
  have hok : badHref h = false := goodLinks_head_good hnf
  have hne : (h == "") = false := by
    unfold badHref at hok
    simp only [Bool.or_eq_false_iff] at hok
    simpa using hok.1.1.1
  unfold resolveOnceResult
  rw [if_neg hcond, hext]
  simp [hne]

/-- Claim C8, witness: the nofollow publisher anchor wins although a new-tab
anchor inside both landmarks precedes it in document order. -/
theorem c8_nofollow_priority_witness :
    resolveOnceResult prioNofollowPage =
      { ok := true, resolved_url := some "https://publisher.example/story",
        method := Method.dom_link, http_status := some 503,
        final_url := some "https://news.google.com/articles/w" } :=
  c8_nofollow_priority prioNofollowPage "https://publisher.example/story" []
    (by decide) (by decide)

/-- Claim C9, confirmed: starting from 0, after any sequence of completed
acquire/release steps — including a release with no matching acquire — the
gate counter stays in \{0, 1\}; an acquire completes only from counter 0 and
sets it to 1; and the valid-body handler performs acquire followed by release
on both the success and the exception exit, returning the counter to 0, so at
most one resolution attempt is active at a time. -/
theorem c9_gate_invariant :
    (∀ (ops : List GateStep) (n : Nat), gateRun 0 ops = some n → n ≤ 1) ∧
    (∀ (n m : Nat), gateApply n GateStep.acquire = some m → n = 0 ∧ m = 1) ∧
    (∀ e : HandlerExit, (handlerGateOps e).getLast? = some GateStep.release) ∧
    (∀ e : HandlerExit, gateRun 0 (handlerGateOps e) = some 0) := by
  refine ⟨fun ops n h => gateRun_le_one ops 0 n (by omega) h, ?_, ?_, ?_⟩
  · intro n m h
    unfold gateApply at h
    by_cases h1 : n ≥ 1
    · rw [if_pos h1] at h
      cases h
    · rw [if_neg h1] at h
      injection h with h
      omega
  · intro e
    cases e <;> rfl
  · intro e
    cases e <;> rfl

/-- Claim C9, witness: a double release followed by an acquire and release
runs to completion and the invariant instantiates at its final counter. -/
theorem c9_gate_invariant_witness :
    gateRun 0 [GateStep.release, GateStep.acquire, GateStep.release] = some 0 ∧ (0 : Nat) ≤ 1 :=
  ⟨rfl, c9_gate_invariant.1 [GateStep.release, GateStep.acquire, GateStep.release] 0 rfl⟩

/-- Claim C10, confirmed: in every attempt result of either variant,
`resolved_url` is non-null exactly when the method is `final_url` or
`dom_link`, and null exactly when the method is `none`, for every page
state. -/
theorem c10_resolved_url_iff_method (st : PageState) :
    ((resolveOnceResult st).resolved_url.isSome ↔
        ((resolveOnceResult st).method = Method.final_url ∨
         (resolveOnceResult st).method = Method.dom_link)) ∧
    ((resolveOnceResult st).resolved_url = Option.none ↔
        (resolveOnceResult st).method = Method.none) ∧
    ((resolveSimpleResult st).resolved_url.isSome ↔
        ((resolveSimpleResult st).method = Method.final_url ∨
         (resolveSimpleResult st).method = Method.dom_link)) ∧
    ((resolveSimpleResult st).resolved_url = Option.none ↔
        (resolveSimpleResult st).method = Method.none) := by
  unfold resolveOnceResult resolveSimpleResult
  refine ⟨?_, ?_, ?_, ?_⟩ <;> (repeat' split) <;> simp

end GNR
